import Mathlib

/-!
Verification of the Tiny-Shell job-control engine (src/tsh.c).

The shallow embedding below translates the job registry, the bg/fg
dispatcher, the foreground waiter, the signal handlers and the relevant
parts of the evaluator into pure Lean functions.  The global 16-slot array
`struct job_t jobs[MAXJOBS]` is modelled as a `List Job` (the initial
registry is a list of 16 empty slots); the global counter `nextjid` lives
in the `Registry` structure.  Machine integers (`pid_t`, `int`) are
modelled as `Int`.  Side effects are made explicit: functions return the
updated registry together with the lines they print and the signals they
send.  The verbose flag is 0 (its default), so the verbose branch of
`addjob` prints nothing.
-/

/-- Job states, from the `#define UNDEF 0 / FG 1 / BG 2 / ST 3` block. -/
inductive JState
  | UNDEF
  | FG
  | BG
  | ST
deriving DecidableEq, Repr

/-- `struct job_t`: pid, jid, state and the stored command line. -/
structure Job where
  pid : Int
  jid : Int
  state : JState
  cmdline : String
deriving DecidableEq, Repr

/-- `clearjob` writes pid 0, jid 0, state UNDEF and an empty command line;
an all-zero slot is an empty slot. -/
def emptyJob : Job := ⟨0, 0, JState.UNDEF, ""⟩

/-- The registry: the 16-slot jobs array plus the global `nextjid`. -/
structure Registry where
  jobs : List Job
  nextjid : Int
deriving DecidableEq, Repr

/-- `MAXJOBS` from the source. -/
def MAXJOBS : Int := 16

/-- `initjobs`: 16 cleared slots; `nextjid` starts at 1. -/
def initRegistry : Registry := ⟨List.replicate 16 emptyJob, 1⟩

/-- `maxjid`: largest `jid` over all 16 slots, starting from 0. -/
def maxjid (js : List Job) : Int :=
  js.foldl (fun m j => if j.jid > m then j.jid else m) 0

/-- Largest `jid` over the active (pid ≠ 0) slots only; used to state what
`deletejob` computes in terms of the remaining active jobs. -/
def maxActiveJid (js : List Job) : Int :=
  maxjid (js.filter (fun j => decide (j.pid ≠ 0)))

/-- The slot-scanning loop of `addjob`: occupy the first slot with pid 0,
storing the given pid, the jid taken from `nextjid`, the state and the
command line; `none` when no empty slot exists. -/
def addjobSlots (pid : Int) (st : JState) (jid : Int) (cmd : String) :
    List Job → Option (List Job)
  | [] => none
  | j :: rest =>
    if j.pid = 0 then some (⟨pid, jid, st, cmd⟩ :: rest)
    else (addjobSlots pid st jid cmd rest).map (fun js => j :: js)

/-- Result of `addjob`: the updated registry, the C return value
(1 = success) and the printed lines. -/
structure AddResult where
  reg : Registry
  ok : Bool
  out : List String
deriving DecidableEq, Repr

/-- `addjob`: fails silently for pid < 1; otherwise occupies the first
empty slot with jid `nextjid`, then increments `nextjid`, resetting it to
1 when it exceeds MAXJOBS; when no empty slot exists it prints
"Tried to create too many jobs" and fails. -/
def addjob (r : Registry) (pid : Int) (st : JState) (cmd : String) : AddResult :=
  if pid < 1 then ⟨r, false, []⟩
  else
    match addjobSlots pid st r.nextjid cmd r.jobs with
    | some js =>
        ⟨⟨js, if r.nextjid + 1 > MAXJOBS then 1 else r.nextjid + 1⟩, true, []⟩
    | none => ⟨r, false, ["Tried to create too many jobs"]⟩

/-- The slot-scanning loop of `deletejob`: clear the first slot whose pid
matches; `none` when no slot matches. -/
def clearSlots (pid : Int) : List Job → Option (List Job)
  | [] => none
  | j :: rest =>
    if j.pid = pid then some (emptyJob :: rest)
    else (clearSlots pid rest).map (fun js => j :: js)

/-- Result of `deletejob`: updated registry and the C return value. -/
structure DelResult where
  reg : Registry
  ok : Bool
deriving DecidableEq, Repr

/-- `deletejob`: fails for pid < 1 or when no slot matches; on success
clears the matching slot and recomputes `nextjid` as `maxjid + 1` over the
updated array. -/
def deletejob (r : Registry) (pid : Int) : DelResult :=
  if pid < 1 then ⟨r, false⟩
  else
    match clearSlots pid r.jobs with
    | some js => ⟨⟨js, maxjid js + 1⟩, true⟩
    | none => ⟨r, false⟩

/-- The scanning loop of `fgpid`: pid of the first slot in state FG, else 0. -/
def fgpidL : List Job → Int
  | [] => 0
  | j :: rest => if j.state = JState.FG then j.pid else fgpidL rest

/-- `fgpid`: pid of the current foreground job, 0 if none. -/
def fgpid (r : Registry) : Int := fgpidL r.jobs

/-- The scanning loop of `getjobpid`: first slot whose pid matches. -/
def getjobpidL (pid : Int) : List Job → Option Job
  | [] => none
  | j :: rest => if j.pid = pid then some j else getjobpidL pid rest

/-- `getjobpid`: pid < 1 is absent; otherwise the first matching slot. -/
def getjobpid (r : Registry) (pid : Int) : Option Job :=
  if pid < 1 then none else getjobpidL pid r.jobs

/-- The scanning loop of `getjobjid`: first slot whose jid matches. -/
def getjobjidL (jid : Int) : List Job → Option Job
  | [] => none
  | j :: rest => if j.jid = jid then some j else getjobjidL jid rest

/-- `getjobjid`: jid < 1 is absent; otherwise the first matching slot. -/
def getjobjid (r : Registry) (jid : Int) : Option Job :=
  if jid < 1 then none else getjobjidL jid r.jobs

/-- The scanning loop of `pid2jid`: jid of the first matching slot, else 0. -/
def pid2jidL (pid : Int) : List Job → Int
  | [] => 0
  | j :: rest => if j.pid = pid then j.jid else pid2jidL pid rest

/-- `pid2jid`: 0 for pid < 1 or when no slot matches. -/
def pid2jid (r : Registry) (pid : Int) : Int :=
  if pid < 1 then 0 else pid2jidL pid r.jobs

/-- The in-place write `getjobpid(jobs, pid)->state = st` performed by the
stopped branch of `sigchld_handler`: update the state of the first slot
whose pid matches, leaving every other field and slot unchanged. -/
def setStateL (pid : Int) (st : JState) : List Job → List Job
  | [] => []
  | j :: rest =>
    if j.pid = pid then ⟨j.pid, j.jid, st, j.cmdline⟩ :: rest
    else j :: setStateL pid st rest

/-- Signals the shell sends with `kill`. -/
inductive Sig
  | SIGINT
  | SIGTSTP
  | SIGCONT
deriving DecidableEq, Repr

/-- `sigint_handler`: the registry is not touched; the handler computes
`fgpid` and unconditionally executes `kill(-fgpid, SIGINT)`.  The result
is the list of (target, signal) pairs passed to `kill`; a negative target
addresses the whole process group, and target 0 addresses process
group 0. -/
def sigint_handler (r : Registry) : List (Int × Sig) :=
  [(-(fgpid r), Sig.SIGINT)]

/-- `sigtstp_handler`: same shape, sending SIGTSTP. -/
def sigtstp_handler (r : Registry) : List (Int × Sig) :=
  [(-(fgpid r), Sig.SIGTSTP)]

/-- The `WIFSTOPPED` branch of `sigchld_handler` (lines 401-403): it
prints the stop report and then writes through the pointer returned by
`getjobpid` without a NULL check.  When the pid is not registered the
dereference has no defined result, modelled as `none`; otherwise the
job's state becomes ST. -/
def sigchldStopped (r : Registry) (pid : Int) (sigN : Int) : Option (Registry × List String) :=
  match getjobpid r pid with
  | none => none
  | some _ =>
      some (⟨setStateL pid JState.ST r.jobs, r.nextjid⟩,
        ["Job [" ++ toString (pid2jid r pid) ++ "] (" ++ toString pid ++
          ") stopped by signal " ++ toString sigN])

/-- C `atoi` digit loop: accumulate the leading decimal digits. -/
def atoiLoop : List Char → Int → Int
  | [], acc => acc
  | c :: cs, acc =>
    if c.isDigit then atoiLoop cs (acc * 10 + ((c.toNat : Int) - 48)) else acc

/-- C `atoi`: skip leading whitespace, consume one optional sign, then the
longest prefix of digits; 0 when there are none. -/
def atoi (s : String) : Int :=
  match s.data.dropWhile Char.isWhitespace with
  | '-' :: cs => -(atoiLoop cs 0)
  | '+' :: cs => atoiLoop cs 0
  | cs => atoiLoop cs 0

/-- `argv[1][0]`: the first character of the argument; a C string's first
byte is the NUL terminator when the string is empty. -/
def headChar (s : String) : Char :=
  match s.data with
  | [] => Char.ofNat 0
  | c :: _ => c

/-- What `do_bgfg` produces: the registry it leaves behind, the lines it
prints and the signals it sends. -/
structure BgfgResult where
  reg : Registry
  out : List String
  sigs : List (Int × Sig)
deriving DecidableEq, Repr

/-- The pid arm of `do_bgfg`: look the job up with `getjobpid(atoi(arg))`;
when absent print the no-such-process message.  When the job is found the
source falls into `if (strcmp(argv[0],"bg")==0) { } else { }` whose two
branches are empty, so nothing further happens. -/
def bgfgByPid (r : Registry) (a : String) : BgfgResult :=
  match getjobpid r (atoi a) with
  | none => ⟨r, ["(" ++ toString (atoi a) ++ "): No such process"], []⟩
  | some _ => ⟨r, [], []⟩

/-- The jobid arm of `do_bgfg`: look the job up with
`getjobjid(atoi(&argv[1][1]))`; when absent print the no-such-job
message.  When the job is found the empty bg/fg branches follow, so
nothing further happens. -/
def bgfgByJid (r : Registry) (a : String) : BgfgResult :=
  match getjobjid r (atoi (a.drop 1)) with
  | none => ⟨r, [a ++ ": No such job"], []⟩
  | some _ => ⟨r, [], []⟩

/-- `do_bgfg`.  A missing argument prints the requires-argument message.
The malformed-argument guard in the source is
`!(isdigit(argv[1][0]) || strcmp(argv[1][0]) == 0)`; the second disjunct
is ill-formed C, but the else-arm (which reads `&argv[1][1]` as the job id
digits) shows the intended test is that the first character is a digit or
a percent sign, and that is what is embedded.  Arguments whose first
character is a digit go to the pid arm; those starting with the percent
sign go to the jobid arm. -/
def do_bgfg (r : Registry) (name : String) (arg : Option String) : BgfgResult :=
  match arg with
  | none => ⟨r, [name ++ " command requires PID or %jobid argument"], []⟩
  | some a =>
    if ¬((headChar a).isDigit ∨ headChar a = '%') then
      ⟨r, [name ++ ": argument must be a PID or %jobid"], []⟩
    else if (headChar a).isDigit then bgfgByPid r a
    else bgfgByJid r a

/-- `waitfg`, fuel-indexed; each unit of fuel is one iteration of the
polling loop over a registry snapshot (the registry itself is read-only
here: `waitfg` performs no mutation).  `true` means the loop returned
within the given fuel, `false` that it was still sleeping. -/
def waitfgFuel (r : Registry) (pid : Int) : Nat → Bool
  | 0 => false
  | n + 1 =>
    match getjobpid r pid with
    | none => true
    | some j =>
      if j.pid ≠ pid then waitfgFuel r pid n
      else if j.state ≠ JState.FG then true
      else waitfgFuel r pid n

/-- What the background arm of `eval` (lines 213-216) produces: `addjob`
result, and the arguments of `printf("[%d] (%d) %s", nextjid-1, chld_pid,
cmdline)` — note the printed job id is read back from the global counter
as `nextjid - 1` after the add, not from the slot that was filled. -/
structure EvalBGResult where
  reg : Registry
  ok : Bool
  addOut : List String
  printedJid : Int
  printedPid : Int
  printedCmd : String
deriving DecidableEq, Repr

/-- The background arm of `eval`: add the job with state BG, then print
`[nextjid-1] (pid) cmdline` using the post-add counter. -/
def evalBG (r : Registry) (pid : Int) (cmd : String) : EvalBGResult :=
  let a := addjob r pid JState.BG cmd
  ⟨a.reg, a.ok, a.out, a.reg.nextjid - 1, pid, cmd⟩

/-- Number of slots in state FG. -/
def countFG (js : List Job) : Nat :=
  js.countP (fun j => decide (j.state = JState.FG))

/-- Number of slots holding the given pid. -/
def countPid (p : Int) (js : List Job) : Nat :=
  js.countP (fun j => decide (j.pid = p))

/-- Number of active slots in state FG (an active slot has pid ≠ 0). -/
def countActiveFG (js : List Job) : Nat :=
  js.countP (fun j => decide (j.pid ≠ 0 ∧ j.state = JState.FG))

/-- Where the shell's synchronous control flow is: reading the next
command at the prompt, or blocked inside `waitfg pid` after launching a
foreground job. -/
inductive Phase
  | prompt
  | waiting (pid : Int)
deriving DecidableEq, Repr

/-- The state of the job-control engine: the registry plus the position
of the synchronous control flow. -/
structure TShell where
  reg : Registry
  phase : Phase
deriving DecidableEq, Repr

/-- The shell right after `initjobs`. -/
def initShell : TShell := ⟨initRegistry, Phase.prompt⟩

/-- One atomic registry operation, as the program performs them.  The
evaluator runs only at the prompt and masks the handler signals around
`addjob`, so each add is atomic; a background add returns to the prompt
while a foreground add moves into `waitfg`.  A freshly forked pid is not
the pid of any live (hence registered) process, giving the
`getjobpid = none` side conditions.  `waitfg` returns exactly when the
looked-up job is gone or no longer FG.  The child-state-change handler
can fire in any phase: its stopped branch (which requires the pid to be
registered, see `sigchldStopped`) sets the state to ST, and its
exit/termination branches call `deletejob`.  The bg/fg dispatcher runs at
the prompt; its bg and fg branches are empty in the source, so
`do_bgfg` never changes the registry.  The interrupt and stop handlers
only send signals, so they do not appear as registry steps. -/
inductive Step : TShell → TShell → Prop where
  | evalBGStep : ∀ s pid cmd, s.phase = Phase.prompt → 1 ≤ pid →
      getjobpid s.reg pid = none →
      Step s ⟨(addjob s.reg pid JState.BG cmd).reg, Phase.prompt⟩
  | evalFGStep : ∀ s pid cmd, s.phase = Phase.prompt → 1 ≤ pid →
      getjobpid s.reg pid = none →
      Step s ⟨(addjob s.reg pid JState.FG cmd).reg, Phase.waiting pid⟩
  | waitReturn : ∀ s pid, s.phase = Phase.waiting pid →
      (∀ j, getjobpid s.reg pid = some j → j.state ≠ JState.FG) →
      Step s ⟨s.reg, Phase.prompt⟩
  | chldStop : ∀ s pid j, getjobpid s.reg pid = some j →
      Step s ⟨⟨setStateL pid JState.ST s.reg.jobs, s.reg.nextjid⟩, s.phase⟩
  | chldReap : ∀ s pid,
      Step s ⟨(deletejob s.reg pid).reg, s.phase⟩
  | dispatch : ∀ s name arg, s.phase = Phase.prompt →
      Step s ⟨(do_bgfg s.reg name arg).reg, Phase.prompt⟩

/-- States reachable from the freshly initialized shell. -/
def Reachable (s : TShell) : Prop :=
  Relation.ReflTransGen Step initShell s

/-! ### Concrete fixtures

Registries built by running the embedded operations from the initial
registry, so each is reachable by the program's own operation sequence. -/

/-- Run a sequence of background `addjob`s, as the evaluator does for a
series of background launches. -/
def addN : Registry → List Int → Registry
  | r, [] => r
  | r, p :: ps => addN (addjob r p JState.BG "c").reg ps

/-- Fifteen background jobs: slots 0-14 hold jids 1-15, `nextjid` is 16. -/
def rA : Registry :=
  addN initRegistry [101, 102, 103, 104, 105, 106, 107, 108, 109, 110, 111, 112, 113, 114, 115]

/-- After reaping pid 101: slot 0 free, `nextjid` recomputed to 16. -/
def rB : Registry := (deletejob rA 101).reg

/-- The registry after launching foreground job pid 7. -/
def rStopBase : Registry := (addjob initRegistry 7 JState.FG "sleep 100").reg

/-- A registry whose only job, [1] (7), is stopped — the state after
launching foreground job pid 7 and stopping it with ctrl-z (the stopped
branch of the child-state-change handler sets its state to ST). -/
def rStop : Registry := ⟨setStateL 7 JState.ST rStopBase.jobs, rStopBase.nextjid⟩

/-- Sixteen background jobs: every slot active, the registry is full. -/
def fullReg : Registry :=
  addN initRegistry
    [201, 202, 203, 204, 205, 206, 207, 208, 209, 210, 211, 212, 213, 214, 215, 216]

/-! ### Claim C1 and C2: the bg/fg branches and the keyboard handlers -/

/-- C1: the bg/fg dispatcher on a successfully resolved job.  At the
failing input `bg 7` (and `fg 7`) with job [1] (7) registered and
stopped, the dispatcher resolves the job but then runs its empty bg/fg
branches: it sends no continue signal, leaves the job's state Stopped
(the registry is unchanged) and prints nothing, contradicting the
claimed continue-notification, state update and output. -/
theorem c1_bgfg_branches_do_nothing :
    (getjobpid rStop 7).map (fun j => j.state) = some JState.ST ∧
    do_bgfg rStop "bg" (some "7") = ⟨rStop, [], []⟩ ∧
    do_bgfg rStop "fg" (some "7") = ⟨rStop, [], []⟩ := by decide

/-- C2: with no foreground job (the initial registry), `fgpid` is 0 and
both keyboard handlers still execute `kill(-fgpid, ...)`, i.e. they issue
a signal addressed to process group 0 — the claim says no signal at all
may be forwarded in this state. -/
theorem c2_handlers_target_group_zero :
    fgpid initRegistry = 0 ∧
    sigint_handler initRegistry = [(0, Sig.SIGINT)] ∧
    sigtstp_handler initRegistry = [(0, Sig.SIGTSTP)] := by decide

/-! ### Claim C3 and C4: the jobId counter wrap -/

/-- C3 counterexample: from the reachable registry `rB` (fifteen adds,
one delete; `nextjid` is 16 and a slot is free) two consecutive
successful adds with no intervening remove assign jids 16 and then 1 —
the counter wrapped, so the assigned jobIds do not strictly increase. -/
theorem c3_jobid_wrap_counterexample :
    (addjob rB 120 JState.BG "c").ok = true ∧
    (addjob (addjob rB 120 JState.BG "c").reg 121 JState.BG "c").ok = true ∧
    ((getjobpid (addjob rB 120 JState.BG "c").reg 120).map (fun j => j.jid)) = some 16 ∧
    ((getjobpid (addjob (addjob rB 120 JState.BG "c").reg 121 JState.BG "c").reg 121).map
        (fun j => j.jid)) = some 1 ∧
    ¬((16 : Int) < 1) := by decide

/-- C4 counterexample: launching a background job from the reachable
registry `rB` registers it with jid 16, but the shell prints
`[nextjid-1]` after the counter wrapped to 1, so the printed job id is 0,
not the assigned 16. -/
theorem c4_printed_jobid_counterexample :
    (evalBG rB 120 "c").ok = true ∧
    (evalBG rB 120 "c").printedJid = 0 ∧
    ((getjobpid (evalBG rB 120 "c").reg 120).map (fun j => j.jid)) = some 16 ∧
    (0 : Int) ≠ 16 := by decide

/-! ### Claim C5 and C6 counterexamples -/

/-- C5 counterexample: `bg 12ab` — the argument is neither a string of
digits nor a percent sign followed by digits, yet the dispatcher does not
print the argument-must-be message: it classifies by the first character
only, reads the numeric prefix with `atoi` and reports pid 12 as not
found. -/
theorem c5_first_char_counterexample :
    do_bgfg initRegistry "bg" (some "12ab") =
      ⟨initRegistry, ["(12): No such process"], []⟩ ∧
    ¬("12ab".data.all Char.isDigit) ∧
    headChar "12ab" ≠ '%' ∧
    ("(12): No such process" : String) ≠ "bg: argument must be a PID or %jobid" := by decide

/-- C6 counterexample: on the full registry `fullReg` (16 active jobs),
`addjob` with pid 0 returns failure and leaves the registry unchanged but
prints nothing — the pid < 1 check exits before the capacity message, so
"reports `Tried to create too many jobs`" fails for this pid. -/
theorem c6_full_registry_pid_zero_counterexample :
    fullReg.jobs.length = 16 ∧
    (∀ j ∈ fullReg.jobs, j.pid ≠ 0) ∧
    addjob fullReg 0 JState.BG "x" = ⟨fullReg, false, []⟩ ∧
    ([] : List String) ≠ ["Tried to create too many jobs"] := by decide

/-! ### Shared lemmas about the scanning loops -/

theorem getjobpidL_some (pid : Int) (js : List Job) (j : Job)
    (h : getjobpidL pid js = some j) : j.pid = pid ∧ j ∈ js := by
  induction js with
  | nil => simp [getjobpidL] at h
  | cons a rest ih =>
    rw [getjobpidL] at h
    split at h
    · next heq =>
      cases h
      exact ⟨heq, List.mem_cons_self _ _⟩
    · next hne =>
      obtain ⟨h1, h2⟩ := ih h
      exact ⟨h1, List.mem_cons_of_mem a h2⟩

theorem getjobpidL_none (pid : Int) (js : List Job) :
    getjobpidL pid js = none ↔ ∀ j ∈ js, j.pid ≠ pid := by
  induction js with
  | nil => simp [getjobpidL]
  | cons a rest ih =>
    rw [getjobpidL]
    by_cases ha : a.pid = pid
    · simp [ha]
    · simp [ha, ih]

theorem getjobpid_some (r : Registry) (pid : Int) (j : Job)
    (h : getjobpid r pid = some j) : j.pid = pid ∧ j ∈ r.jobs ∧ 1 ≤ pid := by
  rw [getjobpid] at h
  split at h
  · cases h
  · next hlt =>
    obtain ⟨h1, h2⟩ := getjobpidL_some pid r.jobs j h
    exact ⟨h1, h2, by omega⟩

/-! ### Claim C9: the foreground waiter's return condition -/

/-- C9: over a registry snapshot, the `waitfg` polling loop returns (for
some amount of fuel) exactly when the pid has no job in the registry or
that job's state is no longer FG; the loop only reads the registry, so it
performs no mutation by construction. -/
theorem c9_waitfg_return_condition (r : Registry) (pid : Int) :
    (∃ n, waitfgFuel r pid n = true) ↔
      (getjobpid r pid = none ∨ ∃ j, getjobpid r pid = some j ∧ j.state ≠ JState.FG) := by
  constructor
  · rintro ⟨n, hn⟩
    induction n with
    | zero => simp [waitfgFuel] at hn
    | succ n ih =>
      rw [waitfgFuel] at hn
      by_cases hnone : getjobpid r pid = none
      · exact Or.inl hnone
      · obtain ⟨j, hj⟩ := Option.ne_none_iff_exists'.mp hnone
        rw [hj] at hn
        have hpid : j.pid = pid := (getjobpid_some r pid j hj).1
        have hn' : (if j.pid ≠ pid then waitfgFuel r pid n
            else if j.state ≠ JState.FG then true else waitfgFuel r pid n) = true := hn
        by_cases hst : j.state ≠ JState.FG
        · exact Or.inr ⟨j, hj, hst⟩
        · rw [if_neg (by simp [hpid]), if_neg hst] at hn'
          exact ih hn'
  · rintro (h | ⟨j, hj, hst⟩)
    · exact ⟨1, by simp [waitfgFuel, h]⟩
    · have hpid : j.pid = pid := (getjobpid_some r pid j hj).1
      exact ⟨1, by simp [waitfgFuel, hj, hpid, hst]⟩

/-! ### Claim C10: the stopped branch needs the pid to be registered -/

/-- C10: the stopped-child branch of the child-state-change handler
dereferences the `getjobpid` result without an absent-check, so its
effect is defined (`some`) exactly when the reported pid is a registered
entry; for an unregistered pid the branch accesses an absent entry
(modelled as `none`). -/
theorem c10_sigchld_stop_requires_registered (r : Registry) (pid sigN : Int) :
    sigchldStopped r pid sigN = none ↔ getjobpid r pid = none := by
  rw [sigchldStopped]
  cases h : getjobpid r pid <;> simp

/-! ### Claim C8: the deletejob contract -/

theorem clearSlots_none (pid : Int) (js : List Job) :
    clearSlots pid js = none ↔ ∀ j ∈ js, j.pid ≠ pid := by
  induction js with
  | nil => simp [clearSlots]
  | cons a rest ih =>
    rw [clearSlots]
    by_cases ha : a.pid = pid
    · simp [ha]
    · simp [ha, ih, Option.map_eq_none']

theorem clearSlots_set (pid : Int) (js js' : List Job)
    (h : clearSlots pid js = some js') :
    ∃ i, (∃ j, js.get? i = some j ∧ j.pid = pid) ∧ js' = js.set i emptyJob := by
  induction js generalizing js' with
  | nil => simp [clearSlots] at h
  | cons a rest ih =>
    rw [clearSlots] at h
    split at h
    · next ha =>
      cases h
      exact ⟨0, ⟨a, rfl, ha⟩, rfl⟩
    · next ha =>
      obtain ⟨t, ht, hft⟩ := Option.map_eq_some'.mp h
      obtain ⟨i, hji, hset⟩ := ih t ht
      refine ⟨i + 1, ?_, ?_⟩
      · simpa using hji
      · rw [← hft, hset]
        simp

theorem maxjid_foldl_filter (js : List Job) (m : Int) (hm : 0 ≤ m)
    (h : ∀ j ∈ js, j.pid = 0 → j.jid = 0) :
    js.foldl (fun m j => if j.jid > m then j.jid else m) m =
      (js.filter (fun j => decide (j.pid ≠ 0))).foldl
        (fun m j => if j.jid > m then j.jid else m) m := by
  induction js generalizing m with
  | nil => rfl
  | cons a rest ih =>
    have hrest : ∀ j ∈ rest, j.pid = 0 → j.jid = 0 :=
      fun j hj => h j (List.mem_cons_of_mem a hj)
    by_cases ha : a.pid = 0
    · have hj : a.jid = 0 := h a (List.mem_cons_self _ _) ha
      have hstep : (if a.jid > m then a.jid else m) = m := by
        rw [if_neg (by omega)]
      rw [List.foldl_cons, hstep, List.filter_cons_of_neg (by simp [ha])]
      exact ih m hm hrest
    · rw [List.foldl_cons, List.filter_cons_of_pos (by simp [ha]), List.foldl_cons]
      have hm' : 0 ≤ if a.jid > m then a.jid else m := by
        by_cases hgt : a.jid > m
        · rw [if_pos hgt]; omega
        · rw [if_neg hgt]; exact hm
      exact ih _ hm' hrest

/-- Under wellformedness (empty slots carry jid 0), the `maxjid` scan over
all 16 slots equals the maximum jid over the active slots. -/
theorem maxjid_eq_maxActive (js : List Job)
    (h : ∀ j ∈ js, j.pid = 0 → j.jid = 0) : maxjid js = maxActiveJid js :=
  maxjid_foldl_filter js 0 le_rfl h

theorem deletejob_ok_spec (r : Registry) (pid : Int)
    (h : (deletejob r pid).ok = true) :
    ¬pid < 1 ∧ ∃ js', clearSlots pid r.jobs = some js' ∧
      deletejob r pid = ⟨⟨js', maxjid js' + 1⟩, true⟩ := by
  by_cases hlt : pid < 1
  · simp [deletejob, hlt] at h
  · cases hcl : clearSlots pid r.jobs with
    | none => simp [deletejob, hlt, hcl] at h
    | some js' => exact ⟨hlt, js', rfl, by simp [deletejob, hlt, hcl]⟩

theorem deletejob_fail (r : Registry) (pid : Int)
    (h : (deletejob r pid).ok = false) : deletejob r pid = ⟨r, false⟩ := by
  by_cases hlt : pid < 1
  · simp [deletejob, hlt]
  · cases hcl : clearSlots pid r.jobs with
    | none => simp [deletejob, hlt, hcl]
    | some js' => simp [deletejob, hlt, hcl] at h

/-- C8: for a wellformed registry (slot pids are nonnegative and empty
slots carry jid 0), `deletejob pid` succeeds exactly when some active
slot holds that pid; on success it clears exactly that slot (the first
match, all other slots unchanged) and sets `nextjid` to one more than the
maximum jobId among the remaining active slots; on failure the registry
is returned unchanged. -/
theorem c8_deletejob_contract (r : Registry) (pid : Int)
    (hwf : ∀ j ∈ r.jobs, 0 ≤ j.pid ∧ (j.pid = 0 → j.jid = 0)) :
    ((deletejob r pid).ok = true ↔ ∃ j ∈ r.jobs, j.pid = pid ∧ j.pid ≠ 0) ∧
    ((deletejob r pid).ok = true →
      (deletejob r pid).reg.nextjid = maxActiveJid (deletejob r pid).reg.jobs + 1 ∧
      ∃ i, (∃ j, r.jobs.get? i = some j ∧ j.pid = pid) ∧
        (deletejob r pid).reg.jobs = r.jobs.set i emptyJob) ∧
    ((deletejob r pid).ok = false → deletejob r pid = ⟨r, false⟩) := by
  refine ⟨⟨?_, ?_⟩, ?_, deletejob_fail r pid⟩
  · intro h
    obtain ⟨hge, js', hcl, _⟩ := deletejob_ok_spec r pid h
    have hne : ¬clearSlots pid r.jobs = none := by simp [hcl]
    rw [clearSlots_none] at hne
    push_neg at hne
    obtain ⟨j, hmem, hj⟩ := hne
    exact ⟨j, hmem, hj, by omega⟩
  · rintro ⟨j, hmem, hjpid, hj0⟩
    have h0 : 0 ≤ j.pid := (hwf j hmem).1
    have hge : ¬pid < 1 := by omega
    have hcl : clearSlots pid r.jobs ≠ none := by
      intro hnone
      rw [clearSlots_none] at hnone
      exact hnone j hmem hjpid
    obtain ⟨js', hjs'⟩ := Option.ne_none_iff_exists'.mp hcl
    simp [deletejob, hge, hjs']
  · intro h
    obtain ⟨hge, js', hcl, heq⟩ := deletejob_ok_spec r pid h
    obtain ⟨i, hji, hset⟩ := clearSlots_set pid r.jobs js' hcl
    rw [heq]
    constructor
    · have hwf' : ∀ j ∈ js', j.pid = 0 → j.jid = 0 := by
        intro j hj hp
        rcases List.mem_or_eq_of_mem_set (hset ▸ hj) with hmem | hemp
        · exact (hwf j hmem).2 hp
        · rw [hemp]; rfl
      exact congrArg (· + 1) (maxjid_eq_maxActive js' hwf')
    · exact ⟨i, hji, hset⟩

/-- Witness for C8 at the concrete registry `rStop` and pid 7. -/
theorem c8_deletejob_contract_witness :
    (deletejob rStop 7).ok = true ↔ ∃ j ∈ rStop.jobs, j.pid = 7 ∧ j.pid ≠ 0 :=
  (c8_deletejob_contract rStop 7 (by decide)).1

/-! ### Shared lemmas about addjob -/

theorem addjobSlots_none (pid : Int) (st : JState) (jid : Int) (cmd : String)
    (js : List Job) (h : ∀ j ∈ js, j.pid ≠ 0) :
    addjobSlots pid st jid cmd js = none := by
  induction js with
  | nil => rfl
  | cons a rest ih =>
    rw [addjobSlots, if_neg (h a (List.mem_cons_self _ _)),
      ih (fun j hj => h j (List.mem_cons_of_mem a hj))]
    rfl

theorem addjob_ok_spec (r : Registry) (pid : Int) (st : JState) (cmd : String)
    (h : (addjob r pid st cmd).ok = true) :
    ¬pid < 1 ∧ ∃ js', addjobSlots pid st r.nextjid cmd r.jobs = some js' ∧
      addjob r pid st cmd =
        ⟨⟨js', if r.nextjid + 1 > MAXJOBS then 1 else r.nextjid + 1⟩, true, []⟩ := by
  by_cases hlt : pid < 1
  · simp [addjob, hlt] at h
  · cases hsl : addjobSlots pid st r.nextjid cmd r.jobs with
    | none => simp [addjob, hlt, hsl] at h
    | some js' => exact ⟨hlt, js', rfl, by simp [addjob, hlt, hsl]⟩

theorem addjobSlots_getjob (pid : Int) (st : JState) (jid : Int) (cmd : String)
    (js js' : List Job) (h : addjobSlots pid st jid cmd js = some js')
    (hfresh : ∀ j ∈ js, j.pid ≠ pid) :
    getjobpidL pid js' = some ⟨pid, jid, st, cmd⟩ := by
  induction js generalizing js' with
  | nil => simp [addjobSlots] at h
  | cons a rest ih =>
    rw [addjobSlots] at h
    split at h
    · cases h
      rw [getjobpidL, if_pos rfl]
    · obtain ⟨t, ht, hft⟩ := Option.map_eq_some'.mp h
      rw [← hft, getjobpidL, if_neg (hfresh a (List.mem_cons_self _ _)),
        ih t ht (fun j hj => hfresh j (List.mem_cons_of_mem a hj))]

/-- On a successful add of a pid not yet in the registry, looking the pid
up afterwards finds the freshly stored job: the given pid and state, the
command line, and jid `nextjid` (the counter value at the call). -/
theorem addjob_getjob_new (r : Registry) (pid : Int) (st : JState) (cmd : String)
    (hok : (addjob r pid st cmd).ok = true)
    (hfresh : getjobpid r pid = none) :
    getjobpid (addjob r pid st cmd).reg pid = some ⟨pid, r.nextjid, st, cmd⟩ := by
  obtain ⟨hge, js', hsl, heq⟩ := addjob_ok_spec r pid st cmd hok
  have hfr : ∀ j ∈ r.jobs, j.pid ≠ pid := by
    rw [getjobpid, if_neg hge, getjobpidL_none] at hfresh
    exact hfresh
  rw [heq]
  show getjobpid ⟨js', if r.nextjid + 1 > MAXJOBS then 1 else r.nextjid + 1⟩ pid = _
  rw [getjobpid, if_neg hge]
  exact addjobSlots_getjob pid st r.nextjid cmd r.jobs js' hsl hfr

/-- On success without a counter wrap, `nextjid` advances by one. -/
theorem addjob_nextjid (r : Registry) (pid : Int) (st : JState) (cmd : String)
    (hok : (addjob r pid st cmd).ok = true) (hlt : r.nextjid < MAXJOBS) :
    (addjob r pid st cmd).reg.nextjid = r.nextjid + 1 := by
  obtain ⟨hge, js', hsl, heq⟩ := addjob_ok_spec r pid st cmd hok
  rw [heq]
  show (if r.nextjid + 1 > MAXJOBS then 1 else r.nextjid + 1) = r.nextjid + 1
  rw [if_neg (by omega)]

/-! ### Claims C3, C4, C5, C6: the amended statements -/

/-- C3 amended: across two consecutive successful adds with no
intervening remove, the assigned jobIds (read back from the stored slots)
strictly increase provided the counter does not wrap, i.e. provided
`nextjid < MAXJOBS` at the first add; at the wrap (first assigned jid
MAXJOBS = 16) the next assigned jid is 1, as `c3_jobid_wrap_counterexample`
shows. -/
theorem c3_jobids_increase_without_wrap (r : Registry) (p₁ p₂ : Int)
    (st₁ st₂ : JState) (c₁ c₂ : String)
    (h₁ : (addjob r p₁ st₁ c₁).ok = true)
    (hf₁ : getjobpid r p₁ = none)
    (h₂ : (addjob (addjob r p₁ st₁ c₁).reg p₂ st₂ c₂).ok = true)
    (hf₂ : getjobpid (addjob r p₁ st₁ c₁).reg p₂ = none)
    (hnw : r.nextjid < MAXJOBS) :
    ((getjobpid (addjob r p₁ st₁ c₁).reg p₁).map (fun j => j.jid) = some r.nextjid) ∧
    ((getjobpid (addjob (addjob r p₁ st₁ c₁).reg p₂ st₂ c₂).reg p₂).map (fun j => j.jid)
        = some (addjob r p₁ st₁ c₁).reg.nextjid) ∧
    r.nextjid < (addjob r p₁ st₁ c₁).reg.nextjid := by
  have g1 := addjob_getjob_new r p₁ st₁ c₁ h₁ hf₁
  have g2 := addjob_getjob_new (addjob r p₁ st₁ c₁).reg p₂ st₂ c₂ h₂ hf₂
  have hn := addjob_nextjid r p₁ st₁ c₁ h₁ hnw
  exact ⟨by rw [g1]; rfl, by rw [g2]; rfl, by rw [hn]; omega⟩

/-- Witness for the amended C3: two background launches from the initial
registry assign jids 1 and then 2. -/
theorem c3_jobids_increase_without_wrap_witness :
    ((getjobpid (addjob initRegistry 5 JState.BG "a").reg 5).map (fun j => j.jid)
        = some initRegistry.nextjid) ∧
    ((getjobpid (addjob (addjob initRegistry 5 JState.BG "a").reg 6 JState.BG "b").reg 6).map
        (fun j => j.jid) = some (addjob initRegistry 5 JState.BG "a").reg.nextjid) ∧
    initRegistry.nextjid < (addjob initRegistry 5 JState.BG "a").reg.nextjid :=
  c3_jobids_increase_without_wrap initRegistry 5 6 JState.BG JState.BG "a" "b"
    (by decide) (by decide) (by decide) (by decide) (by decide)

/-- C4 amended: after a successful background registration the printed
job id `nextjid - 1` equals the jid assigned to the job, provided the
counter did not wrap during the add (`nextjid < MAXJOBS` beforehand); at
the wrap the shell prints 0 while the job got jid 16, as
`c4_printed_jobid_counterexample` shows. -/
theorem c4_printed_jobid_matches_without_wrap (r : Registry) (pid : Int) (cmd : String)
    (hok : (evalBG r pid cmd).ok = true)
    (hfresh : getjobpid r pid = none)
    (hnw : r.nextjid < MAXJOBS) :
    (evalBG r pid cmd).printedJid = r.nextjid ∧
    ((getjobpid (evalBG r pid cmd).reg pid).map (fun j => j.jid) = some r.nextjid) := by
  have hok' : (addjob r pid JState.BG cmd).ok = true := hok
  have hn := addjob_nextjid r pid JState.BG cmd hok' hnw
  have g := addjob_getjob_new r pid JState.BG cmd hok' hfresh
  constructor
  · show (addjob r pid JState.BG cmd).reg.nextjid - 1 = r.nextjid
    rw [hn]
    omega
  · show (getjobpid (addjob r pid JState.BG cmd).reg pid).map (fun j => j.jid) = some r.nextjid
    rw [g]
    rfl

/-- Witness for the amended C4 at the initial registry. -/
theorem c4_printed_jobid_matches_without_wrap_witness :
    (evalBG initRegistry 5 "a").printedJid = initRegistry.nextjid ∧
    ((getjobpid (evalBG initRegistry 5 "a").reg 5).map (fun j => j.jid)
        = some initRegistry.nextjid) :=
  c4_printed_jobid_matches_without_wrap initRegistry 5 "a"
    (by decide) (by decide) (by decide)

/-- C5 amended: the dispatcher classifies its argument by the first
character only: a leading digit means the numeric prefix is read as a
processId, a leading percent sign means the rest is read as a jobId, and
only an argument starting with any other character produces exactly the
argument-must-be message with no state change.  (`bg 12ab` is therefore
treated as pid 12, as `c5_first_char_counterexample` shows.) -/
theorem c5_argument_classification (r : Registry) (name a : String) :
    (¬(headChar a).isDigit → headChar a ≠ '%' →
      do_bgfg r name (some a) = ⟨r, [name ++ ": argument must be a PID or %jobid"], []⟩) ∧
    ((headChar a).isDigit → do_bgfg r name (some a) = bgfgByPid r a) ∧
    (headChar a = '%' → do_bgfg r name (some a) = bgfgByJid r a) := by
  refine ⟨?_, ?_, ?_⟩
  · intro h1 h2
    simp [do_bgfg, h1, h2]
  · intro h
    simp [do_bgfg, h]
  · intro h
    simp [do_bgfg, h]

/-- Witness for the amended C5: `bg x` prints the argument-must-be
message and leaves the registry unchanged. -/
theorem c5_argument_classification_witness :
    do_bgfg initRegistry "bg" (some "x") =
      ⟨initRegistry, ["bg: argument must be a PID or %jobid"], []⟩ :=
  (c5_argument_classification initRegistry "bg" "x").1 (by decide) (by decide)

/-- C6 amended: on a registry holding 16 active jobs, `addjob` always
fails and leaves the registry (all entries and the counter) unchanged; it
prints `Tried to create too many jobs` for every pid ≥ 1, but for
pid < 1 it fails silently before reaching the capacity check, as
`c6_full_registry_pid_zero_counterexample` shows. -/
theorem c6_add_on_full_registry (r : Registry) (pid : Int) (st : JState) (cmd : String)
    (hfull : r.jobs.length = 16 ∧ ∀ j ∈ r.jobs, j.pid ≠ 0) :
    (1 ≤ pid → addjob r pid st cmd = ⟨r, false, ["Tried to create too many jobs"]⟩) ∧
    (pid < 1 → addjob r pid st cmd = ⟨r, false, []⟩) := by
  constructor
  · intro hge
    have hsl := addjobSlots_none pid st r.nextjid cmd r.jobs hfull.2
    have hlt : ¬pid < 1 := by omega
    simp [addjob, hlt, hsl]
  · intro hlt
    simp [addjob, hlt]

/-- Witness for the amended C6 on the concrete full registry. -/
theorem c6_add_on_full_registry_witness :
    addjob fullReg 99 JState.BG "x" = ⟨fullReg, false, ["Tried to create too many jobs"]⟩ :=
  (c6_add_on_full_registry fullReg 99 JState.BG "x" (by decide)).1 (by decide)

/-! ### Counting lemmas for the foreground invariant -/

theorem countPid_cons (p : Int) (a : Job) (l : List Job) :
    countPid p (a :: l) = countPid p l + if a.pid = p then 1 else 0 := by
  rw [countPid, countPid, List.countP_cons]
  by_cases h : a.pid = p <;> simp [h]

theorem countFG_cons (a : Job) (l : List Job) :
    countFG (a :: l) = countFG l + if a.state = JState.FG then 1 else 0 := by
  rw [countFG, countFG, List.countP_cons]
  by_cases h : a.state = JState.FG <;> simp [h]

theorem countFG_eq_zero (l : List Job) :
    countFG l = 0 ↔ ∀ j ∈ l, j.state ≠ JState.FG := by
  rw [countFG, List.countP_eq_zero]
  simp

theorem countPid_eq_zero (p : Int) (l : List Job) :
    countPid p l = 0 ↔ ∀ j ∈ l, j.pid ≠ p := by
  rw [countPid, List.countP_eq_zero]
  simp

theorem countActiveFG_le (js : List Job) : countActiveFG js ≤ countFG js := by
  rw [countActiveFG, countFG]
  refine List.countP_mono_left ?_
  intro a _
  simp only [decide_eq_true_eq]
  intro h
  exact h.2

/-- If a pid occurs in at most one slot, the scan finds exactly the
member slot that holds it. -/
theorem getjobpidL_first (p : Int) (js : List Job) (j : Job)
    (hc : countPid p js ≤ 1) (hmem : j ∈ js) (hp : j.pid = p) :
    getjobpidL p js = some j := by
  induction js with
  | nil => cases hmem
  | cons a rest ih =>
    rw [getjobpidL]
    by_cases ha : a.pid = p
    · rw [if_pos ha]
      have hr : countPid p rest = 0 := by
        rw [countPid_cons, if_pos ha] at hc
        omega
      rcases List.mem_cons.mp hmem with h | hjr
      · rw [h]
      · exact absurd hp ((countPid_eq_zero p rest).mp hr j hjr)
    · rw [if_neg ha]
      rcases List.mem_cons.mp hmem with h | hjr
      · exact absurd (h ▸ hp) ha
      · refine ih ?_ hjr
        rw [countPid_cons, if_neg ha] at hc
        omega

/-! ### Effect of the mutators on the counts and the members -/

theorem addjobSlots_countFG (pid : Int) (st : JState) (jid : Int) (cmd : String)
    (js js' : List Job) (h : addjobSlots pid st jid cmd js = some js')
    (hwf : ∀ j ∈ js, j.pid = 0 → j.state ≠ JState.FG) :
    countFG js' = countFG js + (if st = JState.FG then 1 else 0) := by
  induction js generalizing js' with
  | nil => simp [addjobSlots] at h
  | cons a rest ih =>
    rw [addjobSlots] at h
    split at h
    · next ha =>
      cases h
      have hA : a.state ≠ JState.FG := hwf a (List.mem_cons_self _ _) ha
      rw [countFG_cons, countFG_cons, if_neg hA]
      show countFG rest + (if st = JState.FG then 1 else 0) =
        countFG rest + 0 + (if st = JState.FG then 1 else 0)
      omega
    · next ha =>
      obtain ⟨t, ht, hft⟩ := Option.map_eq_some'.mp h
      rw [← hft, countFG_cons, countFG_cons,
        ih t ht (fun j hj => hwf j (List.mem_cons_of_mem a hj))]
      omega

theorem addjobSlots_countPid (pid : Int) (st : JState) (jid : Int) (cmd : String)
    (q : Int) (hq : q ≠ 0) (js js' : List Job)
    (h : addjobSlots pid st jid cmd js = some js') :
    countPid q js' = countPid q js + (if pid = q then 1 else 0) := by
  induction js generalizing js' with
  | nil => simp [addjobSlots] at h
  | cons a rest ih =>
    rw [addjobSlots] at h
    split at h
    · next ha =>
      cases h
      have hA : ¬a.pid = q := by rw [ha]; omega
      rw [countPid_cons, countPid_cons, if_neg hA]
      show countPid q rest + (if pid = q then 1 else 0) =
        countPid q rest + 0 + (if pid = q then 1 else 0)
      omega
    · next ha =>
      obtain ⟨t, ht, hft⟩ := Option.map_eq_some'.mp h
      rw [← hft, countPid_cons, countPid_cons, ih t ht]
      omega

theorem addjobSlots_mem (pid : Int) (st : JState) (jid : Int) (cmd : String)
    (js js' : List Job) (h : addjobSlots pid st jid cmd js = some js') :
    ∀ x ∈ js', x ∈ js ∨ x = ⟨pid, jid, st, cmd⟩ := by
  induction js generalizing js' with
  | nil => simp [addjobSlots] at h
  | cons a rest ih =>
    rw [addjobSlots] at h
    split at h
    · cases h
      intro x hx
      rcases List.mem_cons.mp hx with hh | hxr
      · right; exact hh
      · left; exact List.mem_cons_of_mem a hxr
    · obtain ⟨t, ht, hft⟩ := Option.map_eq_some'.mp h
      intro x hx
      rw [← hft] at hx
      rcases List.mem_cons.mp hx with hh | hxr
      · left; rw [hh]; exact List.mem_cons_self _ _
      · rcases ih t ht x hxr with h1 | h2
        · left; exact List.mem_cons_of_mem a h1
        · right; exact h2

theorem setStateL_countFG_le (pid : Int) (js : List Job) :
    countFG (setStateL pid JState.ST js) ≤ countFG js := by
  induction js with
  | nil => exact le_refl _
  | cons a rest ih =>
    rw [setStateL]
    by_cases ha : a.pid = pid
    · rw [if_pos ha, countFG_cons, countFG_cons]
      have : (⟨a.pid, a.jid, JState.ST, a.cmdline⟩ : Job).state ≠ JState.FG := by
        intro hc
        cases hc
      rw [if_neg this]
      omega
    · rw [if_neg ha, countFG_cons, countFG_cons]
      exact Nat.add_le_add_right ih _

theorem setStateL_countPid (pid : Int) (st : JState) (q : Int) (js : List Job) :
    countPid q (setStateL pid st js) = countPid q js := by
  induction js with
  | nil => rfl
  | cons a rest ih =>
    rw [setStateL]
    by_cases ha : a.pid = pid
    · rw [if_pos ha, countPid_cons, countPid_cons]
    · rw [if_neg ha, countPid_cons, countPid_cons, ih]

theorem setStateL_mem (pid : Int) (st : JState) (js : List Job) :
    ∀ x ∈ setStateL pid st js, x ∈ js ∨ x.state = st := by
  induction js with
  | nil => simp [setStateL]
  | cons a rest ih =>
    rw [setStateL]
    by_cases ha : a.pid = pid
    · rw [if_pos ha]
      intro x hx
      rcases List.mem_cons.mp hx with hh | hxr
      · right; rw [hh]
      · left; exact List.mem_cons_of_mem a hxr
    · rw [if_neg ha]
      intro x hx
      rcases List.mem_cons.mp hx with hh | hxr
      · left; rw [hh]; exact List.mem_cons_self _ _
      · rcases ih x hxr with h1 | h2
        · left; exact List.mem_cons_of_mem a h1
        · right; exact h2

theorem clearSlots_countFG_le (pid : Int) (js js' : List Job)
    (h : clearSlots pid js = some js') : countFG js' ≤ countFG js := by
  induction js generalizing js' with
  | nil => simp [clearSlots] at h
  | cons a rest ih =>
    rw [clearSlots] at h
    split at h
    · cases h
      rw [countFG_cons, countFG_cons]
      have : emptyJob.state ≠ JState.FG := by intro hc; cases hc
      rw [if_neg this]
      omega
    · obtain ⟨t, ht, hft⟩ := Option.map_eq_some'.mp h
      rw [← hft, countFG_cons, countFG_cons]
      exact Nat.add_le_add_right (ih t ht) _

theorem clearSlots_countPid_le (pid q : Int) (hq : q ≠ 0) (js js' : List Job)
    (h : clearSlots pid js = some js') : countPid q js' ≤ countPid q js := by
  induction js generalizing js' with
  | nil => simp [clearSlots] at h
  | cons a rest ih =>
    rw [clearSlots] at h
    split at h
    · cases h
      rw [countPid_cons, countPid_cons]
      have hne : ¬emptyJob.pid = q := by
        simp only [emptyJob]
        omega
      rw [if_neg hne]
      omega
    · obtain ⟨t, ht, hft⟩ := Option.map_eq_some'.mp h
      rw [← hft, countPid_cons, countPid_cons]
      exact Nat.add_le_add_right (ih t ht) _

theorem clearSlots_mem (pid : Int) (js js' : List Job)
    (h : clearSlots pid js = some js') : ∀ x ∈ js', x ∈ js ∨ x = emptyJob := by
  intro x hx
  obtain ⟨i, _, hset⟩ := clearSlots_set pid js js' h
  exact List.mem_or_eq_of_mem_set (hset ▸ hx)

/-! ### The foreground invariant -/

theorem addjob_fail_reg (r : Registry) (pid : Int) (st : JState) (cmd : String)
    (h : ¬(addjob r pid st cmd).ok = true) : (addjob r pid st cmd).reg = r := by
  by_cases hlt : pid < 1
  · simp [addjob, hlt]
  · cases hsl : addjobSlots pid st r.nextjid cmd r.jobs with
    | none => simp [addjob, hlt, hsl]
    | some js' => exact absurd (by simp [addjob, hlt, hsl]) h

theorem do_bgfg_reg (r : Registry) (name : String) (arg : Option String) :
    (do_bgfg r name arg).reg = r := by
  cases arg with
  | none => rfl
  | some a =>
    rw [do_bgfg]
    split
    · rfl
    · split
      · rw [bgfgByPid]
        cases getjobpid r (atoi a) <;> rfl
      · rw [bgfgByJid]
        cases getjobjid r (atoi (a.drop 1)) <;> rfl

/-- Empty slots never carry state FG; holds in every reachable registry. -/
def RegWF (js : List Job) : Prop :=
  ∀ j ∈ js, j.pid = 0 → j.state ≠ JState.FG

/-- The inductive invariant for the job-control engine: empty slots are
never FG; at most one slot is FG; at the prompt no slot is FG; while
waiting on pid p, p is positive, at most one slot holds p, and every FG
slot holds p. -/
def ShellInv (s : TShell) : Prop :=
  RegWF s.reg.jobs ∧
  countFG s.reg.jobs ≤ 1 ∧
  (s.phase = Phase.prompt → countFG s.reg.jobs = 0) ∧
  (∀ p, s.phase = Phase.waiting p →
    1 ≤ p ∧ countPid p s.reg.jobs ≤ 1 ∧
    ∀ j ∈ s.reg.jobs, j.state = JState.FG → j.pid = p)

theorem inv_init : ShellInv initShell := by
  refine ⟨?_, by decide, fun _ => by decide, fun p hp => absurd hp (by simp [initShell])⟩
  intro j hj
  have hje : j = emptyJob := List.eq_of_mem_replicate hj
  rw [hje]
  decide

theorem inv_step (s s' : TShell) (hs : Step s s') (hinv : ShellInv s) : ShellInv s' := by
  obtain ⟨hwf, hle, hprompt, hwait⟩ := hinv
  cases hs with
  | evalBGStep pid cmd hph hge hfresh =>
    have h0 : countFG s.reg.jobs = 0 := hprompt hph
    by_cases hok : (addjob s.reg pid JState.BG cmd).ok = true
    · obtain ⟨hlt, js', hsl, heq⟩ := addjob_ok_spec s.reg pid JState.BG cmd hok
      have hjobs : (addjob s.reg pid JState.BG cmd).reg.jobs = js' := by rw [heq]
      refine ⟨?_, ?_, ?_, fun p hp => absurd hp (by simp)⟩
      · show RegWF (addjob s.reg pid JState.BG cmd).reg.jobs
        rw [hjobs]
        intro x hx hxpid
        rcases addjobSlots_mem _ _ _ _ _ _ hsl x hx with hm | hnew
        · exact hwf x hm hxpid
        · exfalso
          rw [hnew] at hxpid
          simp at hxpid
          omega
      · show countFG (addjob s.reg pid JState.BG cmd).reg.jobs ≤ 1
        rw [hjobs, addjobSlots_countFG _ _ _ _ _ _ hsl hwf, h0]
        simp
      · intro _
        show countFG (addjob s.reg pid JState.BG cmd).reg.jobs = 0
        rw [hjobs, addjobSlots_countFG _ _ _ _ _ _ hsl hwf, h0]
        simp
    · have hreg := addjob_fail_reg s.reg pid JState.BG cmd hok
      refine ⟨?_, ?_, ?_, fun p hp => absurd hp (by simp)⟩
      · show RegWF (addjob s.reg pid JState.BG cmd).reg.jobs
        rw [hreg]
        exact hwf
      · show countFG (addjob s.reg pid JState.BG cmd).reg.jobs ≤ 1
        rw [hreg]
        exact hle
      · intro _
        show countFG (addjob s.reg pid JState.BG cmd).reg.jobs = 0
        rw [hreg]
        exact h0
  | evalFGStep pid cmd hph hge hfresh =>
    have h0 : countFG s.reg.jobs = 0 := hprompt hph
    have hfr : ∀ j ∈ s.reg.jobs, j.pid ≠ pid := by
      rw [getjobpid, if_neg (by omega), getjobpidL_none] at hfresh
      exact hfresh
    have hcp0 : countPid pid s.reg.jobs = 0 := (countPid_eq_zero pid s.reg.jobs).mpr hfr
    by_cases hok : (addjob s.reg pid JState.FG cmd).ok = true
    · obtain ⟨hlt, js', hsl, heq⟩ := addjob_ok_spec s.reg pid JState.FG cmd hok
      have hjobs : (addjob s.reg pid JState.FG cmd).reg.jobs = js' := by rw [heq]
      refine ⟨?_, ?_, fun hp => absurd hp (by simp), ?_⟩
      · show RegWF (addjob s.reg pid JState.FG cmd).reg.jobs
        rw [hjobs]
        intro x hx hxpid
        rcases addjobSlots_mem _ _ _ _ _ _ hsl x hx with hm | hnew
        · exact hwf x hm hxpid
        · exfalso
          rw [hnew] at hxpid
          simp at hxpid
          omega
      · show countFG (addjob s.reg pid JState.FG cmd).reg.jobs ≤ 1
        rw [hjobs, addjobSlots_countFG _ _ _ _ _ _ hsl hwf, h0]
        simp
      · intro p hp
        have hpp : pid = p := by
          simpa using hp
        refine ⟨by omega, ?_, ?_⟩
        · show countPid p (addjob s.reg pid JState.FG cmd).reg.jobs ≤ 1
          rw [hjobs, addjobSlots_countPid pid JState.FG s.reg.nextjid cmd p (by omega)
            s.reg.jobs js' hsl, ← hpp, hcp0]
          simp
        · show ∀ x ∈ (addjob s.reg pid JState.FG cmd).reg.jobs,
            x.state = JState.FG → x.pid = p
          rw [hjobs]
          intro x hx hxFG
          rcases addjobSlots_mem _ _ _ _ _ _ hsl x hx with hm | hnew
          · exact absurd hxFG ((countFG_eq_zero _).mp h0 x hm)
          · rw [hnew, ← hpp]
    · have hreg := addjob_fail_reg s.reg pid JState.FG cmd hok
      refine ⟨?_, ?_, fun hp => absurd hp (by simp), ?_⟩
      · show RegWF (addjob s.reg pid JState.FG cmd).reg.jobs
        rw [hreg]
        exact hwf
      · show countFG (addjob s.reg pid JState.FG cmd).reg.jobs ≤ 1
        rw [hreg]
        exact hle
      · intro p hp
        have hpp : pid = p := by
          simpa using hp
        refine ⟨by omega, ?_, ?_⟩
        · show countPid p (addjob s.reg pid JState.FG cmd).reg.jobs ≤ 1
          rw [hreg, ← hpp, hcp0]
          omega
        · show ∀ x ∈ (addjob s.reg pid JState.FG cmd).reg.jobs,
            x.state = JState.FG → x.pid = p
          rw [hreg]
          intro x hx hxFG
          exact absurd hxFG ((countFG_eq_zero _).mp h0 x hx)
  | waitReturn pid hph hcond =>
    obtain ⟨hp1, hp2, hp3⟩ := hwait pid hph
    have h0 : countFG s.reg.jobs = 0 := by
      rw [countFG_eq_zero]
      intro j hj hFG
      have hjp : j.pid = pid := hp3 j hj hFG
      have hfind : getjobpidL pid s.reg.jobs = some j :=
        getjobpidL_first pid s.reg.jobs j hp2 hj hjp
      have hsome : getjobpid s.reg pid = some j := by
        rw [getjobpid, if_neg (by omega)]
        exact hfind
      exact hcond j hsome hFG
    exact ⟨hwf, hle, fun _ => h0, fun p hp => absurd hp (by simp)⟩
  | chldStop pid j hget =>
    refine ⟨?_, ?_, ?_, ?_⟩
    · intro x hx hxpid
      rcases setStateL_mem pid JState.ST s.reg.jobs x hx with hm | hst
      · exact hwf x hm hxpid
      · rw [hst]
        decide
    · exact le_trans (setStateL_countFG_le pid s.reg.jobs) hle
    · intro hp
      have h0 := hprompt hp
      have hmono := setStateL_countFG_le pid s.reg.jobs
      show countFG (setStateL pid JState.ST s.reg.jobs) = 0
      omega
    · intro p hp
      obtain ⟨hp1, hp2, hp3⟩ := hwait p hp
      refine ⟨hp1, ?_, ?_⟩
      · show countPid p (setStateL pid JState.ST s.reg.jobs) ≤ 1
        rw [setStateL_countPid]
        exact hp2
      · intro x hx hxFG
        rcases setStateL_mem pid JState.ST s.reg.jobs x hx with hm | hst
        · exact hp3 x hm hxFG
        · rw [hst] at hxFG
          cases hxFG
  | chldReap pid =>
    by_cases hok : (deletejob s.reg pid).ok = true
    · obtain ⟨hlt, js', hcl, heq⟩ := deletejob_ok_spec s.reg pid hok
      have hjobs : (deletejob s.reg pid).reg.jobs = js' := by rw [heq]
      refine ⟨?_, ?_, ?_, ?_⟩
      · show RegWF (deletejob s.reg pid).reg.jobs
        rw [hjobs]
        intro x hx hxpid
        rcases clearSlots_mem pid s.reg.jobs js' hcl x hx with hm | hemp
        · exact hwf x hm hxpid
        · rw [hemp]
          decide
      · show countFG (deletejob s.reg pid).reg.jobs ≤ 1
        rw [hjobs]
        exact le_trans (clearSlots_countFG_le pid _ _ hcl) hle
      · intro hp
        have h0 := hprompt hp
        have hmono := clearSlots_countFG_le pid s.reg.jobs js' hcl
        show countFG (deletejob s.reg pid).reg.jobs = 0
        rw [hjobs]
        omega
      · intro p hp
        obtain ⟨hp1, hp2, hp3⟩ := hwait p hp
        refine ⟨hp1, ?_, ?_⟩
        · show countPid p (deletejob s.reg pid).reg.jobs ≤ 1
          rw [hjobs]
          exact le_trans (clearSlots_countPid_le pid p (by omega) _ _ hcl) hp2
        · show ∀ x ∈ (deletejob s.reg pid).reg.jobs, x.state = JState.FG → x.pid = p
          rw [hjobs]
          intro x hx hxFG
          rcases clearSlots_mem pid s.reg.jobs js' hcl x hx with hm | hemp
          · exact hp3 x hm hxFG
          · rw [hemp] at hxFG
            cases hxFG
    · have hfalse : (deletejob s.reg pid).ok = false := by
        cases hb : (deletejob s.reg pid).ok
        · rfl
        · exact absurd hb hok
      have hreg : (deletejob s.reg pid).reg = s.reg := by
        rw [deletejob_fail s.reg pid hfalse]
      refine ⟨?_, ?_, ?_, ?_⟩
      · show RegWF (deletejob s.reg pid).reg.jobs
        rw [hreg]
        exact hwf
      · show countFG (deletejob s.reg pid).reg.jobs ≤ 1
        rw [hreg]
        exact hle
      · intro hp
        show countFG (deletejob s.reg pid).reg.jobs = 0
        rw [hreg]
        exact hprompt hp
      · intro p hp
        obtain ⟨hp1, hp2, hp3⟩ := hwait p hp
        refine ⟨hp1, ?_, ?_⟩
        · show countPid p (deletejob s.reg pid).reg.jobs ≤ 1
          rw [hreg]
          exact hp2
        · show ∀ x ∈ (deletejob s.reg pid).reg.jobs, x.state = JState.FG → x.pid = p
          rw [hreg]
          exact hp3
  | dispatch name arg hph =>
    have hreg : (do_bgfg s.reg name arg).reg = s.reg := do_bgfg_reg s.reg name arg
    refine ⟨?_, ?_, ?_, fun p hp => absurd hp (by simp)⟩
    · show RegWF (do_bgfg s.reg name arg).reg.jobs
      rw [hreg]
      exact hwf
    · show countFG (do_bgfg s.reg name arg).reg.jobs ≤ 1
      rw [hreg]
      exact hle
    · intro _
      show countFG (do_bgfg s.reg name arg).reg.jobs = 0
      rw [hreg]
      exact hprompt hph

theorem inv_reachable (s : TShell) (h : Reachable s) : ShellInv s := by
  induction h with
  | refl => exact inv_init
  | tail hab hbc ih => exact inv_step _ _ hbc ih

/-- C7: in every state reachable by the program's registry operations
(adds by the evaluator, removals and stop transitions by the
child-state-change handler, the dispatcher's bg/fg which never mutates),
at most one active job has state Foreground. -/
theorem c7_at_most_one_foreground (s : TShell) (h : Reachable s) :
    countActiveFG s.reg.jobs ≤ 1 :=
  le_trans (countActiveFG_le s.reg.jobs) (inv_reachable s h).2.1

/-- Witness for C7 at the initial shell state. -/
theorem c7_at_most_one_foreground_witness : countActiveFG initShell.reg.jobs ≤ 1 :=
  c7_at_most_one_foreground initShell Relation.ReflTransGen.refl
